import Mathlib

/-!
Verification of the beaker-core crawler and search code.

The definitions below are a shallow embedding of the source:
* the crawl orchestrator (`doCrawl`, `doCheckpoint`, `getMatchingChangesInOrder`
  in crawler/util.js),
* the posts dataset crawler (`crawlSite` in crawler/posts.js),
* the search federator and suggestion service (`listSearchResults`,
  `listSuggestions` in crawler/search.js).

The database tables touched by the crawler for a single (dataset, source) pair
are modelled explicitly: the `crawl_posts` rows for the source and the
`crawl_sources_meta` checkpoint row.  Every write of the checkpoint row is also
recorded in a ghost `trace` field so that theorems can speak about the sequence
of stored checkpoint values.
-/

namespace Beaker

/-- Change type of a history entry (`add` / `change` / `del`). -/
inductive CType
  | add
  | change
  | del
deriving DecidableEq, Repr

/-- One entry of an archive's change log: `{name, type, version}`. -/
structure ChangeEvent where
  name : String
  type : CType
  version : Nat
deriving DecidableEq, Repr

/-- Result of `archive.pda.readFile` followed by JSON-parse and schema
validation of a post file: the read can fail (`fail`), the content can fail
to parse or validate (`invalid`), or it yields a valid post whose `updatedAt`
may be missing or an invalid date (`none`, which the code normalizes to 0). -/
inductive ReadResult
  | fail
  | invalid
  | valid (body : String) (createdAt : Int) (updatedAt : Option Int)
deriving DecidableEq, Repr

/-- A row of the `crawl_posts` table for one crawl source. -/
structure PostRow where
  pathname : String
  crawledAt : Nat
  body : String
  createdAt : Int
  updatedAt : Int
deriving DecidableEq, Repr

/-- The `crawl_sources_meta` row for one (dataset, source) pair:
`{crawlDatasetVersion, crawlSourceVersion}`. -/
structure Checkpoint where
  datasetVersion : Nat
  sourceVersion : Nat
deriving DecidableEq, Repr

/-- Database state for one (dataset, source) pair: the dataset rows, the
current checkpoint row (if any), and a ghost trace of every checkpoint row
ever written (in write order). -/
structure CrawlState where
  posts : List PostRow
  checkpoint : Option Checkpoint
  trace : List Checkpoint
deriving DecidableEq, Repr

/-- crawler/util.js `doCheckpoint`: DELETE the meta row then INSERT the new
one; the new row is also recorded on the ghost trace. -/
def doCheckpoint (datasetVersion sourceVersion : Nat) (st : CrawlState) : CrawlState :=
  { st with
    checkpoint := some ⟨datasetVersion, sourceVersion⟩
    trace := st.trace ++ [⟨datasetVersion, sourceVersion⟩] }

/-- One step of the fold in crawler/util.js `getMatchingChangesInOrder`:
if the name matches, remove the entry's previous occurrence from the
accumulator (`findIndex` + `splice`) and push the entry at the end. -/
def gmcStep (pat : String → Bool) (list : List ChangeEvent) (c : ChangeEvent) :
    List ChangeEvent :=
  if pat c.name then (list.eraseP (fun c2 => c2.name == c.name)) ++ [c] else list

/-- crawler/util.js `getMatchingChangesInOrder`. -/
def getMatchingChangesInOrder (changes : List ChangeEvent) (pat : String → Bool) :
    List ChangeEvent :=
  changes.foldl (gmcStep pat) []

/-- crawler/util.js `doCrawl` lines 38-49: read the stored checkpoint; if it
exists but its dataset version differs from the caller's, set
`resetRequired = true` and discard it; a missing row leaves `resetRequired`
as `false`.  Returns `(resetRequired, crawlSourceVersion)`. -/
def computeState (cp : Option Checkpoint) (epoch : Nat) : Bool × Nat :=
  match cp with
  | some s => if s.datasetVersion ≠ epoch then (true, 0) else (false, s.sourceVersion)
  | none => (false, 0)

/-- crawler/util.js `doCrawl` lines 56-65: the change-log window
`[crawlSourceVersion + 1, archiveVersion + 1)` fetched from the archive's
history (the log is the archive's full ordered history). -/
def crawlWindow (cp : Option Checkpoint) (epoch archiveVersion : Nat)
    (log : List ChangeEvent) : List ChangeEvent :=
  log.filter (fun c =>
    decide ((computeState cp epoch).2 + 1 ≤ c.version) &&
    decide (c.version < archiveVersion + 1))

/-- crawler/util.js `doCrawl`: compute the reset flag and window, run the
dataset handler with `{changes, resetRequired}`, and unconditionally perform
the final checkpoint at the archive's current version. -/
def doCrawl (epoch archiveVersion : Nat) (log : List ChangeEvent)
    (handler : List ChangeEvent → Bool → CrawlState → CrawlState)
    (st : CrawlState) : CrawlState :=
  let changes := crawlWindow st.checkpoint epoch archiveVersion log
  let st1 := handler changes (computeState st.checkpoint epoch).1 st
  doCheckpoint epoch archiveVersion st1

/-- crawler/posts.js `JSON_PATH_REGEX`, the pattern
`^\/data\/feed\/([^/]+)\.json$` with the case-insensitive flag. -/
def postPathMatches (s : String) : Bool :=
  let l := s.data.map Char.toLower
  let pre := "/data/feed/".data
  let suf := ".json".data
  pre.isPrefixOf l &&
    (let rest := l.drop pre.length
     suf.isSuffixOf rest &&
       (let base := rest.take (rest.length - suf.length)
        !(base.length == 0) && !(base.any (fun ch => ch == '/'))))

/-- crawler/posts.js `TABLE_VERSION`. -/
def TABLE_VERSION : Nat := 1

/-- crawler/posts.js `crawlSite` upsert (lines 122-136): if a row with the
entry's pathname exists, UPDATE every matching row, else INSERT at the end. -/
def upsertPost (posts : List PostRow) (row : PostRow) : List PostRow :=
  if posts.any (fun p => p.pathname == row.pathname) then
    posts.map (fun p => if p.pathname == row.pathname then row else p)
  else posts ++ [row]

/-- crawler/posts.js `crawlSite` loop body for one resolved change entry.
`none` means the handler returns early ("abort indexing", read failure);
`some st` with `st` unchanged is the parse/validation-failure `continue`
(which skips the per-entry checkpoint); otherwise the entry is applied and
checkpointed at its version. -/
def processEntry (epoch : Nat) (files : String → ReadResult) (now : Nat)
    (st : CrawlState) (c : ChangeEvent) : Option CrawlState :=
  match c.type with
  | CType.del =>
      some (doCheckpoint epoch c.version
        { st with posts := st.posts.filter (fun p => !(p.pathname == c.name)) })
  | _ =>
      match files c.name with
      | ReadResult.fail => none
      | ReadResult.invalid => some st
      | ReadResult.valid body createdAt updatedAt =>
          let row : PostRow :=
            { pathname := c.name, crawledAt := now, body := body,
              createdAt := createdAt, updatedAt := updatedAt.getD 0 }
          some (doCheckpoint epoch c.version
            { st with posts := upsertPost st.posts row })

/-- crawler/posts.js `crawlSite` loop over the resolved change entries; an
aborting entry (`none`) stops the loop and returns the state reached so far. -/
def processEntries (epoch : Nat) (files : String → ReadResult) (now : Nat) :
    List ChangeEvent → CrawlState → CrawlState
  | [], st => st
  | c :: rest, st =>
      match processEntry epoch files now st c with
      | none => st
      | some st1 => processEntries epoch files now rest st1

/-- crawler/posts.js `crawlSite` handler body: on `resetRequired` delete all
rows for the source and checkpoint `sourceVersion = 0`, then resolve the
changes against the post path pattern and process them in order. -/
def postsHandler (epoch : Nat) (files : String → ReadResult) (now : Nat)
    (changes : List ChangeEvent) (resetRequired : Bool) (st : CrawlState) : CrawlState :=
  let st1 := if resetRequired then doCheckpoint epoch 0 { st with posts := [] } else st
  processEntries epoch files now (getMatchingChangesInOrder changes postPathMatches) st1

/-- One crawl invocation's inputs: the archive's current version, its full
ordered change log, its current file contents (as seen by `readFile` plus
parse/validation), and the wall-clock time used for `Date.now()`. -/
structure RunInput where
  version : Nat
  log : List ChangeEvent
  files : String → ReadResult
  now : Nat

/-- crawler/posts.js `crawlSite` with the dataset epoch as a parameter (the
source bakes it in as the constant `TABLE_VERSION`). -/
def crawlSiteAt (epoch : Nat) (r : RunInput) (st : CrawlState) : CrawlState :=
  doCrawl epoch r.version r.log (postsHandler epoch r.files r.now) st

/-- crawler/posts.js `crawlSite`. -/
def crawlSite (r : RunInput) (st : CrawlState) : CrawlState :=
  crawlSiteAt TABLE_VERSION r st

/-- Spec-side definition of the change-set resolver, transcribed from the
spec's words (§3 ResolvedChangeSet, §4.1): keep exactly those events that
match the pattern and have no later same-name occurrence, in input order.
It is compared against the source's `getMatchingChangesInOrder` in C3. -/
def changeSetResolverSpec (pat : String → Bool) : List ChangeEvent → List ChangeEvent
  | [] => []
  | c :: rest =>
      if pat c.name && !(rest.any (fun c2 => c2.name == c.name)) then
        c :: changeSetResolverSpec pat rest
      else changeSetResolverSpec pat rest

/-- Initial empty database state for a fresh (dataset, source) pair. -/
def emptyState : CrawlState := { posts := [], checkpoint := none, trace := [] }

/-- Failing input for C1: an archive at version 3 whose change window holds a
single post add at version 1, and reading the post file fails. -/
def runC1 : RunInput :=
  { version := 3, log := [⟨"/data/feed/a.json", CType.add, 1⟩],
    files := fun _ => ReadResult.fail, now := 5 }

/-- Concrete run for C2: the post file at version 1 is schema-invalid, the
one at version 2 is valid; archive version is 2. -/
def runC2 : RunInput :=
  { version := 2,
    log := [⟨"/data/feed/a.json", CType.add, 1⟩, ⟨"/data/feed/b.json", CType.add, 2⟩],
    files := fun name =>
      if name == "/data/feed/a.json" then ReadResult.invalid
      else ReadResult.valid "hello" 10 (some 11),
    now := 7 }

/-- The same archive crawled again later, after the invalid file was fixed. -/
def runC2retry : RunInput :=
  { version := 2,
    log := [⟨"/data/feed/a.json", CType.add, 1⟩, ⟨"/data/feed/b.json", CType.add, 2⟩],
    files := fun _ => ReadResult.valid "hello" 10 (some 11),
    now := 9 }

/-- Witness inputs for C4: stored checkpoint at epoch 5, crawl at epoch 1. -/
def stC4 : CrawlState :=
  { posts := [⟨"/data/feed/x.json", 0, "old", 0, 0⟩], checkpoint := some ⟨5, 7⟩, trace := [] }

/-- Concrete run input for the C4 witness. -/
def runC4 : RunInput :=
  { version := 1, log := [⟨"/data/feed/x.json", CType.del, 1⟩],
    files := fun _ => ReadResult.fail, now := 3 }

/-- Two concrete same-epoch runs for the C5 witness. -/
def runsC5 : List RunInput :=
  [{ version := 2, log := [⟨"/data/feed/a.json", CType.add, 1⟩],
     files := fun _ => ReadResult.valid "a" 1 none, now := 1 },
   { version := 3,
     log := [⟨"/data/feed/a.json", CType.add, 1⟩, ⟨"/data/feed/a.json", CType.change, 3⟩],
     files := fun _ => ReadResult.valid "b" 2 (some 3), now := 2 }]

/-- State with a stored checkpoint at a different epoch (2) and version 5. -/
def stC5 : CrawlState := { posts := [], checkpoint := some ⟨2, 5⟩, trace := [] }

/-- Epoch-changed run for the C5 counterexample. -/
def runC5x : RunInput :=
  { version := 2, log := [], files := fun _ => ReadResult.fail, now := 0 }

/-- Concrete file contents for the C8 witness. -/
def filesC8 : String → ReadResult := fun _ => ReadResult.valid "bb" 4 none

/-- Concrete state for the C8 witness: one existing row for the pathname. -/
def stC8 : CrawlState :=
  { posts := [⟨"/data/feed/a.json", 1, "old", 2, 3⟩], checkpoint := some ⟨1, 1⟩, trace := [] }

/-- Concrete change entry for the C8 witness. -/
def evC8 : ChangeEvent := ⟨"/data/feed/a.json", CType.change, 2⟩

/-- search.js line 315, `Math.min(Math.max(Math.floor(hops), 1), 2)`.
`none` models an omitted `hops` (JS `undefined`): `Math.floor(undefined)` is
NaN, and NaN propagates unchanged through `Math.max`/`Math.min`. -/
def clampHops : Option Int → Option Int
  | none => none
  | some h => some (min (max h 1) 2)

/-- search.js lines 336-346: the crawl-source id scope.  `hops === 2` takes
the user plus all followed source ids, `hops === 1` just the user; any other
value (in particular NaN from an omitted `hops`) matches neither branch and
leaves `crawlSourceIds` undefined (`none`). -/
def scopeIds (userId : Nat) (followedIds : List Nat) (hops : Option Int) :
    Option (List Nat) :=
  match hops with
  | some h =>
      if h = 2 then some (userId :: followedIds)
      else if h = 1 then some [userId] else none
  | none => none

/-- search.js hops-2 query: `SELECT id FROM crawl_sources src INNER JOIN
crawl_followgraph fgraph ON fgraph.destUrl = src.url AND
fgraph.crawlSourceId = ?` — the ids of sources the user's follow-graph
entries point to.  `sources` is the `crawl_sources` table as (id, url),
`edges` the `crawl_followgraph` table as (crawlSourceId, destUrl). -/
def followedSourceIds (sources : List (Nat × String)) (edges : List (Nat × String))
    (userId : Nat) : List Nat :=
  (sources.filter (fun s => edges.any (fun e => e.2 == s.2 && e.1 == userId))).map
    (fun s => s.1)

/-- A massaged search result row; the merge step only reads its url (for
de-duplication) and `crawledAt` (for ranking). -/
structure SearchRow where
  url : String
  title : String
  crawledAt : Int
deriving DecidableEq, Repr

/-- lodash `uniqWith(rows, (a, b) => a.url === b.url)`: keep the first
occurrence of each url. -/
def uniqByUrl (rows : List SearchRow) : List SearchRow :=
  rows.foldl (fun acc r => if acc.any (fun a => a.url == r.url) then acc else acc ++ [r]) []

/-- search.js `if (!datasets || datasets.includes(d))`. -/
def wantsDataset (datasets : Option (List String)) (d : String) : Bool :=
  match datasets with
  | none => true
  | some ds => ds.contains d

/-- JS `limit || 20`: both an omitted and a zero limit fall back to 20. -/
def effLimit : Option Nat → Nat
  | none => 20
  | some l => if l = 0 then 20 else l

/-- The sort comparator `(a, b) => b.crawledAt - a.crawledAt` as a relation:
descending by `crawledAt`. -/
def byCrawledAtDesc (a b : SearchRow) : Prop := b.crawledAt ≤ a.crawledAt

instance : DecidableRel byCrawledAtDesc := fun a b => Int.decLe b.crawledAt a.crawledAt

instance : IsTotal SearchRow byCrawledAtDesc := ⟨fun a b => le_total b.crawledAt a.crawledAt⟩

instance : IsTrans SearchRow byCrawledAtDesc := ⟨fun _ _ _ h1 h2 => le_trans h2 h1⟩

/-- search.js FOLLOWGRAPH block: query rows de-duplicated by url, then
enriched per row (followers, follow-back flag, thumb — the collaborator
calls are abstracted as `enrich`). -/
def followgraphResults (datasets : Option (List String)) (rows : List SearchRow)
    (enrich : SearchRow → SearchRow) : List SearchRow :=
  if wantsDataset datasets "followgraph" then (uniqByUrl rows).map enrich else []

/-- search.js LINK_POSTS block: each row reshaped into a post result (author
profile lookup abstracted as `reshape`); no de-duplication. -/
def linkPostsResults (datasets : Option (List String)) (rows : List SearchRow)
    (reshape : SearchRow → SearchRow) : List SearchRow :=
  if wantsDataset datasets "link_posts" then rows.map reshape else []

/-- search.js PUBLISHED_SITES block: query rows de-duplicated by url, then
resolved to full site descriptions (abstracted as `resolve`). -/
def publishedSitesResults (datasets : Option (List String)) (rows : List SearchRow)
    (resolve : SearchRow → SearchRow) : List SearchRow :=
  if wantsDataset datasets "published_sites" then (uniqByUrl rows).map resolve else []

/-- search.js `listSearchResults` final assembly (lines 438-440): the three
dataset result sets are concatenated in order, sorted descending by
`crawledAt` (JS stable `Array.prototype.sort` modelled by insertion sort),
and sliced to the effective limit (`limit || 20`). -/
def listSearchResults (datasets : Option (List String)) (limit : Option Nat)
    (fg lp ps : List SearchRow) (efg elp eps : SearchRow → SearchRow) : List SearchRow :=
  ((followgraphResults datasets fg efg ++ linkPostsResults datasets lp elp ++
      publishedSitesResults datasets ps eps).insertionSort byCrawledAtDesc).take
    (effLimit limit)

/-- A built-in page or bookmark suggestion entry `{title, url}`. -/
structure PageRec where
  url : String
  title : String
deriving DecidableEq, Repr

/-- A saved library archive record as consumed by the suggestion filter. -/
structure LibRec where
  url : String
  title : String
  type : String
deriving DecidableEq, Repr

/-- A bookmark row `{href, title, pinned}`. -/
structure BookmarkRec where
  href : String
  title : String
  pinned : Bool
deriving DecidableEq, Repr

/-- A history row `{url, title}`. -/
structure HistRec where
  url : String
  title : String
deriving DecidableEq, Repr

/-- Char-list helper for JS `String.prototype.includes`. -/
def includesAux (q : List Char) : List Char → Bool
  | [] => q.isEmpty
  | c :: rest => q.isPrefixOf (c :: rest) || includesAux q rest

/-- JS `s.includes(q)`. -/
def strIncludes (s q : String) : Bool := includesAux q.data s.data

/-- JS `s.toLowerCase()`. -/
def strToLower (s : String) : String := ⟨s.data.map Char.toLower⟩

/-- search.js `BUILTIN_PAGES` (url, title). -/
def BUILTIN_PAGES : List PageRec :=
  [⟨"beaker://library", "Your Library"⟩, ⟨"beaker://search", "Search"⟩,
   ⟨"beaker://bookmarks", "Bookmarks"⟩, ⟨"beaker://history", "History"⟩,
   ⟨"beaker://watchlist", "Watchlist"⟩, ⟨"beaker://downloads", "Downloads"⟩,
   ⟨"beaker://settings", "Settings"⟩]

/-- search.js `filterFn`:
`(a.url || a.href).includes(query) || a.title.toLowerCase().includes(query)`. -/
def suggFilter (query url title : String) : Bool :=
  strIncludes url query || strIncludes (strToLower title) query

/-- lodash `groupBy` group lookup: the filtered records of one basic type,
`undefined` (`none`) when the group is empty. -/
def groupOf (basic : String → String) (rs : List LibRec) (k : String) :
    Option (List LibRec) :=
  let g := rs.filter (fun a => basic a.type == k)
  if g.isEmpty then none else some g

/-- search.js `SuggestionResults`. -/
structure Suggestions where
  apps : List PageRec
  people : Option (List LibRec)
  webPages : Option (List LibRec)
  fileShares : Option (List LibRec)
  imageCollections : Option (List LibRec)
  others : Option (List LibRec)
  bookmarks : Option (List PageRec)
  history : Option (List HistRec)

/-- search.js `listSuggestions`: built-in pages and library groups are always
computed; bookmarks (filtered, sliced to 12, reshaped) and history (search
result sliced to 12, then sorted by url length) are attached only when the
query string is truthy, i.e. non-empty.  `basic` abstracts `getBasicType`,
`historySearch` the history database query. -/
def listSuggestions (query : String) (filterPins : Bool) (basic : String → String)
    (libraryResults : List LibRec) (bookmarkRows : List BookmarkRec)
    (historySearch : String → List HistRec) : Suggestions :=
  let apps := BUILTIN_PAGES.filter (fun p => suggFilter query p.url p.title)
  let lib := libraryResults.filter (fun a => suggFilter query a.url a.title)
  let base : Suggestions :=
    { apps := apps, people := groupOf basic lib "user",
      webPages := groupOf basic lib "web-page",
      fileShares := groupOf basic lib "file-share",
      imageCollections := groupOf basic lib "image-collection",
      others := groupOf basic lib "other",
      bookmarks := none, history := none }
  if query ≠ "" then
    let bres :=
      if filterPins then
        bookmarkRows.filter (fun b => !b.pinned && suggFilter query b.href b.title)
      else bookmarkRows.filter (fun b => suggFilter query b.href b.title)
    let bres2 := (bres.take 12).map (fun b => (⟨b.href, b.title⟩ : PageRec))
    let hres := ((historySearch query).take 12).insertionSort
      (fun a b => a.url.length ≤ b.url.length)
    { base with bookmarks := some bres2, history := some hres }
  else base

lemma eraseP_name_eq_filter (n : String) :
    ∀ (l : List ChangeEvent), l.Pairwise (fun a b => a.name ≠ b.name) →
      l.eraseP (fun a => a.name == n) = l.filter (fun a => !(a.name == n))
  | [], _ => rfl
  | a :: l, h => by
      rcases List.pairwise_cons.mp h with ⟨ha, hl⟩
      by_cases hn : a.name = n
      · have hb : (a.name == n) = true := by simp [hn]
        simp only [List.eraseP_cons, List.filter_cons, hb, Bool.not_true, cond_true,
          Bool.false_eq_true, if_false]
        refine (List.filter_eq_self.mpr fun b hbm => ?_).symm
        have hba := ha b hbm
        rw [hn] at hba
        simp only [Bool.not_eq_true', beq_eq_false_iff_ne, ne_eq]
        exact fun hh => hba hh.symm
      · have hb : (a.name == n) = false := by simp [hn]
        simp only [List.eraseP_cons, List.filter_cons, hb, Bool.not_false, cond_false,
          if_true]
        rw [eraseP_name_eq_filter n l hl]

lemma gmcStep_pairwise (pat : String → Bool) (acc : List ChangeEvent) (c : ChangeEvent)
    (h : acc.Pairwise (fun a b => a.name ≠ b.name)) :
    (gmcStep pat acc c).Pairwise (fun a b => a.name ≠ b.name) := by
  unfold gmcStep
  by_cases hp : pat c.name
  · simp only [hp, if_true]
    rw [eraseP_name_eq_filter c.name acc h]
    refine List.pairwise_append.mpr ⟨h.filter _, List.pairwise_singleton _ _, ?_⟩
    intro a ha b hb
    rcases List.mem_filter.mp ha with ⟨_, hpa⟩
    simp only [List.mem_singleton] at hb
    subst hb
    simpa using hpa
  · simpa [hp] using h

lemma foldl_gmcStep_pairwise (pat : String → Bool) :
    ∀ (changes acc : List ChangeEvent),
      acc.Pairwise (fun a b => a.name ≠ b.name) →
      (changes.foldl (gmcStep pat) acc).Pairwise (fun a b => a.name ≠ b.name)
  | [], _, h => h
  | c :: cs, acc, h => foldl_gmcStep_pairwise pat cs _ (gmcStep_pairwise pat acc c h)

lemma gmc_pairwise (changes : List ChangeEvent) (pat : String → Bool) :
    (getMatchingChangesInOrder changes pat).Pairwise (fun a b => a.name ≠ b.name) :=
  foldl_gmcStep_pairwise pat changes [] List.Pairwise.nil

lemma gmc_append_single (changes : List ChangeEvent) (c : ChangeEvent) (pat : String → Bool) :
    getMatchingChangesInOrder (changes ++ [c]) pat =
      gmcStep pat (getMatchingChangesInOrder changes pat) c := by
  unfold getMatchingChangesInOrder
  rw [List.foldl_append]
  rfl

lemma spec_append_single (pat : String → Bool) (c : ChangeEvent) :
    ∀ (l : List ChangeEvent),
      changeSetResolverSpec pat (l ++ [c]) =
        if pat c.name then
          (changeSetResolverSpec pat l).filter (fun a => !(a.name == c.name)) ++ [c]
        else changeSetResolverSpec pat l
  | [] => by
      by_cases hp : pat c.name <;> simp [changeSetResolverSpec, hp]
  | d :: ds => by
      have IH := spec_append_single pat c ds
      have hcons : ∀ (l : List ChangeEvent),
          changeSetResolverSpec pat (d :: l) =
            if (pat d.name && !(l.any (fun c2 => c2.name == d.name))) = true then
              d :: changeSetResolverSpec pat l
            else changeSetResolverSpec pat l := fun l => rfl
      rw [List.cons_append, hcons, hcons]
      have hanyapp : ((ds ++ [c]).any (fun c2 => c2.name == d.name)) =
          ((ds.any (fun c2 => c2.name == d.name)) || (c.name == d.name)) := by
        rw [List.any_append]
        simp [List.any_cons]
      by_cases hp : pat c.name = true
      · simp only [hp, if_true] at IH ⊢
        by_cases hcd : c.name = d.name
        · have hbcd : (c.name == d.name) = true := by simp [hcd]
          have hbdc : (d.name == c.name) = true := by simp [hcd.symm]
          have hpd : pat d.name = true := by rw [← hcd]; exact hp
          rw [hanyapp, hbcd, Bool.or_true, Bool.not_true, Bool.and_false]
          simp only [Bool.false_eq_true, if_false]
          rw [IH]
          by_cases hq : (pat d.name && !(ds.any (fun c2 => c2.name == d.name))) = true
          · rw [if_pos hq]
            simp [List.filter_cons, hbdc]
          · rw [if_neg hq]
        · have hbcd : (c.name == d.name) = false := by simp [hcd]
          have hbdc : (d.name == c.name) = false := by
            simp only [beq_eq_false_iff_ne, ne_eq]
            exact fun hh => hcd hh.symm
          rw [hanyapp, hbcd, Bool.or_false]
          by_cases hq : (pat d.name && !(ds.any (fun c2 => c2.name == d.name))) = true
          · rw [if_pos hq, if_pos hq, IH]
            simp [List.filter_cons, hbdc]
          · rw [if_neg hq, if_neg hq, IH]
      · simp only [hp, Bool.false_eq_true, if_false] at IH ⊢
        have hp2 : pat c.name = false := by simpa using hp
        by_cases hcd : c.name = d.name
        · have hpd : pat d.name = false := by rw [← hcd]; exact hp2
          rw [hpd]
          simp only [Bool.false_and, Bool.false_eq_true, if_false]
          exact IH
        · have hbcd : (c.name == d.name) = false := by simp [hcd]
          rw [hanyapp, hbcd, Bool.or_false]
          by_cases hq : (pat d.name && !(ds.any (fun c2 => c2.name == d.name))) = true
          · rw [if_pos hq, if_pos hq, IH]
          · rw [if_neg hq, if_neg hq, IH]

lemma gmc_eq_spec (pat : String → Bool) (changes : List ChangeEvent) :
    getMatchingChangesInOrder changes pat = changeSetResolverSpec pat changes := by
  induction changes using List.reverseRecOn with
  | nil => rfl
  | append_singleton l c IH =>
      rw [gmc_append_single, spec_append_single]
      unfold gmcStep
      by_cases hp : pat c.name
      · simp only [hp, if_true]
        rw [eraseP_name_eq_filter c.name _ (gmc_pairwise l pat), IH]
      · simp only [hp, Bool.false_eq_true, if_false]
        exact IH

lemma spec_sublist (pat : String → Bool) :
    ∀ (l : List ChangeEvent), (changeSetResolverSpec pat l).Sublist l
  | [] => List.Sublist.refl []
  | c :: cs => by
      unfold changeSetResolverSpec
      by_cases h : (pat c.name && !(cs.any (fun c2 => c2.name == c.name))) = true
      · simp only [h, if_true]
        exact (spec_sublist pat cs).cons₂ c
      · simp only [h, if_false]
        exact (spec_sublist pat cs).cons c

lemma spec_names (pat : String → Bool) (n : String) :
    ∀ (l : List ChangeEvent),
      ((∃ e ∈ changeSetResolverSpec pat l, e.name = n) ↔
        (∃ e ∈ l, e.name = n ∧ pat n = true))
  | [] => by simp [changeSetResolverSpec]
  | c :: cs => by
      have IH := spec_names pat n cs
      have hcons :
          changeSetResolverSpec pat (c :: cs) =
            if (pat c.name && !(cs.any (fun c2 => c2.name == c.name))) = true then
              c :: changeSetResolverSpec pat cs
            else changeSetResolverSpec pat cs := rfl
      rw [hcons]
      by_cases h : (pat c.name && !(cs.any (fun c2 => c2.name == c.name))) = true
      · rw [if_pos h]
        have hpc : pat c.name = true := by
          have h2 := h
          simp only [Bool.and_eq_true] at h2
          exact h2.1
        constructor
        · rintro ⟨e, he, hen⟩
          rcases List.mem_cons.mp he with rfl | he2
          · exact ⟨e, List.mem_cons_self _ _, hen, by rw [← hen]; exact hpc⟩
          · rcases IH.mp ⟨e, he2, hen⟩ with ⟨f, hf, hfn, hfp⟩
            exact ⟨f, List.mem_cons_of_mem _ hf, hfn, hfp⟩
        · rintro ⟨e, he, hen, hpn⟩
          rcases List.mem_cons.mp he with rfl | he2
          · exact ⟨e, List.mem_cons_self _ _, hen⟩
          · rcases IH.mpr ⟨e, he2, hen, hpn⟩ with ⟨f, hf, hfn⟩
            exact ⟨f, List.mem_cons_of_mem _ hf, hfn⟩
      · rw [if_neg h, IH]
        constructor
        · rintro ⟨e, he, hen, hpn⟩
          exact ⟨e, List.mem_cons_of_mem _ he, hen, hpn⟩
        · rintro ⟨e, he, hen, hpn⟩
          rcases List.mem_cons.mp he with rfl | he2
          · by_cases hpc : pat e.name = true
            · have hq : (cs.any (fun c2 => c2.name == e.name)) = true := by
                by_contra hq2
                simp only [Bool.not_eq_true] at hq2
                exact h (by simp [hpc, hq2])
              rcases List.any_eq_true.mp hq with ⟨f, hf, hfe⟩
              exact ⟨f, hf, (beq_iff_eq.mp hfe).trans hen, hpn⟩
            · exact absurd (by rw [hen]; exact hpn) hpc
          · exact ⟨e, he2, hen, hpn⟩

/-- C3: for every input list of change events and every name pattern, the
change-set resolver's output is a subsequence of the input with at most one
event per name; the set of names in the output equals the set of distinct
names matching the pattern in the input; and the output equals the
latest-occurrence, order-of-latest-occurrence projection described by the
spec (`changeSetResolverSpec`), so each surviving name carries its latest
event and distinct surviving names appear in latest-occurrence order. -/
theorem C3_change_set_resolver (changes : List ChangeEvent) (pat : String → Bool) :
    (getMatchingChangesInOrder changes pat).Sublist changes ∧
    (getMatchingChangesInOrder changes pat).Pairwise (fun a b => a.name ≠ b.name) ∧
    (∀ n, (∃ e ∈ getMatchingChangesInOrder changes pat, e.name = n) ↔
          (∃ e ∈ changes, e.name = n ∧ pat n = true)) ∧
    getMatchingChangesInOrder changes pat = changeSetResolverSpec pat changes := by
  refine ⟨?_, gmc_pairwise changes pat, ?_, gmc_eq_spec pat changes⟩
  · rw [gmc_eq_spec]
    exact spec_sublist pat changes
  · intro n
    rw [gmc_eq_spec]
    exact spec_names pat n changes

/-- Case analysis on one loop iteration of the posts crawler: it aborts,
skips (state unchanged), or applies some post-table mutation followed by the
per-entry checkpoint at the entry's version. -/
lemma processEntry_cases (epoch : Nat) (files : String → ReadResult) (now : Nat)
    (st : CrawlState) (c : ChangeEvent) :
    processEntry epoch files now st c = none ∨
    processEntry epoch files now st c = some st ∨
    ∃ posts2, processEntry epoch files now st c =
      some (doCheckpoint epoch c.version { st with posts := posts2 }) := by
  unfold processEntry
  cases c.type
  case del => exact Or.inr (Or.inr ⟨_, rfl⟩)
  case add =>
    cases files c.name
    case fail => exact Or.inl rfl
    case invalid => exact Or.inr (Or.inl rfl)
    case valid body createdAt updatedAt => exact Or.inr (Or.inr ⟨_, rfl⟩)
  case change =>
    cases files c.name
    case fail => exact Or.inl rfl
    case invalid => exact Or.inr (Or.inl rfl)
    case valid body createdAt updatedAt => exact Or.inr (Or.inr ⟨_, rfl⟩)

/-- The versions checkpointed by the entry loop form a sublist of the
processed entries' versions, appended to the incoming trace. -/
lemma processEntries_trace_versions (epoch : Nat) (files : String → ReadResult) (now : Nat) :
    ∀ (es : List ChangeEvent) (st : CrawlState),
      ∃ vs : List Nat, vs.Sublist (es.map (fun e => e.version)) ∧
        (processEntries epoch files now es st).trace =
          st.trace ++ vs.map (fun v => (⟨epoch, v⟩ : Checkpoint))
  | [], st => ⟨[], List.nil_sublist _, by simp [processEntries]⟩
  | c :: es, st => by
      rcases processEntry_cases epoch files now st c with h | h | ⟨posts2, h⟩
      · refine ⟨[], List.nil_sublist _, ?_⟩
        simp [processEntries, h]
      · rcases processEntries_trace_versions epoch files now es st with ⟨vs, hsub, htr⟩
        refine ⟨vs, hsub.trans (List.sublist_cons_self _ _), ?_⟩
        simp only [processEntries, h]
        exact htr
      · rcases processEntries_trace_versions epoch files now es
          (doCheckpoint epoch c.version { st with posts := posts2 }) with ⟨vs, hsub, htr⟩
        refine ⟨c.version :: vs, hsub.cons₂ _, ?_⟩
        simp only [processEntries, h]
        rw [htr]
        simp [doCheckpoint]

/-- The entry loop only appends to the checkpoint trace. -/
lemma processEntries_trace_append (epoch : Nat) (files : String → ReadResult) (now : Nat)
    (es : List ChangeEvent) (st : CrawlState) :
    ∃ t, (processEntries epoch files now es st).trace = st.trace ++ t := by
  rcases processEntries_trace_versions epoch files now es st with ⟨vs, _, htr⟩
  exact ⟨_, htr⟩

/-- Every posts crawl run ends with the orchestrator's unconditional final
checkpoint at the archive's current version. -/
lemma crawlSiteAt_checkpoint (epoch : Nat) (r : RunInput) (st : CrawlState) :
    (crawlSiteAt epoch r st).checkpoint = some ⟨epoch, r.version⟩ := rfl

/-- C1: the claim fails on the code.  When the read of the only add entry
fails, the handler aborts the run (no row is applied), but `doCrawl` then
still performs its unconditional final checkpoint, storing
`sourceVersion = 3` — the archive's current version — which is past the
last successfully applied entry (there is none, so it should have stayed
at 0 per the claim).  The unread entry is therefore lost to future runs. -/
theorem C1_read_failure_still_checkpoints :
    (crawlSite runC1 emptyState).posts = [] ∧
    (crawlSite runC1 emptyState).checkpoint = some ⟨TABLE_VERSION, 3⟩ ∧
    (crawlSite runC1 emptyState).trace = [⟨TABLE_VERSION, 3⟩] := by
  decide

/-- C2 counterexample: the entry at version 1 is skipped for a validation
failure, yet the stored checkpoint after the run is `sourceVersion = 2`,
past the skipped entry's version 1 — and a later run (even with the file
fixed) applies nothing, so the skipped entry is never re-attempted,
contrary to the claim. -/
theorem C2_cex_checkpoint_passes_skipped_entry :
    (crawlSite runC2 emptyState).checkpoint = some ⟨TABLE_VERSION, 2⟩ ∧
    ((crawlSite runC2 emptyState).posts.map (fun p => p.pathname)) = ["/data/feed/b.json"] ∧
    (crawlSite runC2retry (crawlSite runC2 emptyState)).posts =
      (crawlSite runC2 emptyState).posts := by
  decide

/-- C2 (amended): a parse/validation failure causes only that entry to be
skipped while the run continues (the loop iteration leaves the state
unchanged and writes no checkpoint), but the run's final checkpoint stores
the archive's current version, so the skipped entry — whose version is at
most the archive version — falls outside every later run's change window
and is never re-attempted. -/
theorem C2_parse_failure_skips_forever (r : RunInput) (st : CrawlState) (c : ChangeEvent)
    (epoch version2 : Nat) (log2 : List ChangeEvent)
    (h1 : c.type ≠ CType.del) (h2 : r.files c.name = ReadResult.invalid)
    (h3 : c.version ≤ r.version) :
    processEntry epoch r.files r.now st c = some st ∧
    (crawlSite r st).checkpoint = some ⟨TABLE_VERSION, r.version⟩ ∧
    c ∉ crawlWindow (crawlSite r st).checkpoint TABLE_VERSION version2 log2 := by
  refine ⟨?_, rfl, ?_⟩
  · unfold processEntry
    cases hc : c.type
    case del => exact absurd hc h1
    case add => rw [h2]
    case change => rw [h2]
  · intro hmem
    rw [show (crawlSite r st).checkpoint = some ⟨TABLE_VERSION, r.version⟩ from rfl] at hmem
    simp only [crawlWindow, computeState, List.mem_filter, TABLE_VERSION] at hmem
    rcases hmem with ⟨-, hcond⟩
    simp only [ne_eq, not_true_eq_false, if_false, Bool.and_eq_true, decide_eq_true_eq] at hcond
    omega

/-- Witness for C2's amended theorem at the concrete counterexample input. -/
theorem C2_parse_failure_skips_forever_witness :
    ((⟨"/data/feed/a.json", CType.add, 1⟩ : ChangeEvent).type ≠ CType.del ∧
      runC2.files "/data/feed/a.json" = ReadResult.invalid ∧
      (⟨"/data/feed/a.json", CType.add, 1⟩ : ChangeEvent).version ≤ runC2.version) ∧
    (processEntry 1 runC2.files runC2.now emptyState ⟨"/data/feed/a.json", CType.add, 1⟩ =
        some emptyState ∧
      (crawlSite runC2 emptyState).checkpoint = some ⟨TABLE_VERSION, runC2.version⟩ ∧
      (⟨"/data/feed/a.json", CType.add, 1⟩ : ChangeEvent) ∉
        crawlWindow (crawlSite runC2 emptyState).checkpoint TABLE_VERSION 9
          [⟨"/data/feed/a.json", CType.add, 1⟩]) :=
  ⟨⟨by decide, by decide, by decide⟩,
    C2_parse_failure_skips_forever runC2 emptyState ⟨"/data/feed/a.json", CType.add, 1⟩ 1 9
      [⟨"/data/feed/a.json", CType.add, 1⟩] (by decide) (by decide) (by decide)⟩

/-- C4: with a stored checkpoint at a different dataset epoch, the crawl run
computes `resetRequired = true`, treats the stored version as 0 for the
window, deletes all the source's rows and checkpoints `sourceVersion = 0`
immediately (it is the first checkpoint written in the run), before any
change is reapplied. -/
theorem C4_epoch_bump_full_rebuild (epoch E1 v : Nat) (r : RunInput) (st : CrawlState)
    (hcp : st.checkpoint = some ⟨E1, v⟩) (hne : E1 ≠ epoch) :
    (computeState st.checkpoint epoch).1 = true ∧
    crawlSiteAt epoch r st =
      doCheckpoint epoch r.version
        (processEntries epoch r.files r.now
          (getMatchingChangesInOrder
            (r.log.filter (fun c =>
              decide (0 + 1 ≤ c.version) && decide (c.version < r.version + 1)))
            postPathMatches)
          (doCheckpoint epoch 0 { st with posts := [] })) ∧
    (∃ t, (crawlSiteAt epoch r st).trace = st.trace ++ ⟨epoch, 0⟩ :: t) := by
  have hcs : computeState st.checkpoint epoch = (true, 0) := by
    rw [hcp]
    simp [computeState, hne]
  refine ⟨by rw [hcs], ?_, ?_⟩
  · unfold crawlSiteAt doCrawl postsHandler crawlWindow
    rw [hcs]
    simp
  · unfold crawlSiteAt doCrawl postsHandler crawlWindow
    rw [hcs]
    simp only [if_true]
    rcases processEntries_trace_append epoch r.files r.now
      (getMatchingChangesInOrder
        (r.log.filter (fun c =>
          decide ((true, 0).2 + 1 ≤ c.version) && decide (c.version < r.version + 1)))
        postPathMatches)
      (doCheckpoint epoch 0 { st with posts := [] }) with ⟨t, ht⟩
    refine ⟨t ++ [⟨epoch, r.version⟩], ?_⟩
    simp only [doCheckpoint] at ht ⊢
    rw [ht]
    simp [doCheckpoint]

/-- Witness for C4 at a concrete epoch-mismatched input. -/
theorem C4_epoch_bump_full_rebuild_witness :
    (stC4.checkpoint = some ⟨5, 7⟩ ∧ 5 ≠ 1) ∧
    ((computeState stC4.checkpoint 1).1 = true ∧
      crawlSiteAt 1 runC4 stC4 =
        doCheckpoint 1 runC4.version
          (processEntries 1 runC4.files runC4.now
            (getMatchingChangesInOrder
              (runC4.log.filter (fun c =>
                decide (0 + 1 ≤ c.version) && decide (c.version < runC4.version + 1)))
              postPathMatches)
            (doCheckpoint 1 0 { stC4 with posts := [] })) ∧
      (∃ t, (crawlSiteAt 1 runC4 stC4).trace = stC4.trace ++ ⟨1, 0⟩ :: t)) :=
  ⟨⟨rfl, by decide⟩, C4_epoch_bump_full_rebuild 1 5 7 runC4 stC4 rfl (by decide)⟩

/-- C6 counterexample: with no stored checkpoint record the code leaves
`resetRequired = false` (the claim says it is set to `true`); only the
stored source version is treated as 0. -/
theorem C6_cex_no_checkpoint_no_reset :
    (computeState none TABLE_VERSION).1 ≠ true ∧ (computeState none TABLE_VERSION).2 = 0 := by
  decide

/-- C6 (amended): when no checkpoint record is stored, the orchestrator
leaves `resetRequired = false` (an epoch mismatch against a stored record is
the only reset trigger) and treats the stored `sourceVersion` as 0 when
computing the change window, which therefore starts at version 1. -/
theorem C6_no_checkpoint_defaults (epoch archiveVersion : Nat) (log : List ChangeEvent) :
    computeState none epoch = (false, 0) ∧
    crawlWindow none epoch archiveVersion log =
      log.filter (fun c =>
        decide (0 + 1 ≤ c.version) && decide (c.version < archiveVersion + 1)) :=
  ⟨rfl, rfl⟩

/-- Auxiliary: a strictly increasing list bounded strictly below by `w` and
above by `V` forms a non-decreasing chain from `w` to `V`. -/
lemma chain_of_bounds (w V : Nat) :
    ∀ (xs : List Nat), xs.Pairwise (fun a b => a < b) →
      (∀ x ∈ xs, w < x ∧ x ≤ V) → w ≤ V →
      List.Chain' (fun a b => a ≤ b) (w :: xs ++ [V])
  | [], _, _, hwV => by
      simpa [List.chain'_cons] using hwV
  | x :: xs, hp, hb, hwV => by
      rcases List.pairwise_cons.mp hp with ⟨hx, hp2⟩
      have hxb := hb x (List.mem_cons_self _ _)
      have IH := chain_of_bounds x V xs hp2
        (fun y hy => ⟨hx y hy, (hb y (List.mem_cons_of_mem _ hy)).2⟩) hxb.2
      exact List.chain'_cons.mpr ⟨Nat.le_of_lt hxb.1, IH⟩

/-- A crawl run whose epoch matches the stored checkpoint (or with no stored
checkpoint) simply processes the resolved window from the current state. -/
lemma crawlSite_eq_of_no_reset (r : RunInput) (st : CrawlState) (w : Nat)
    (hcs : computeState st.checkpoint TABLE_VERSION = (false, w)) :
    crawlSite r st =
      doCheckpoint TABLE_VERSION r.version
        (processEntries TABLE_VERSION r.files r.now
          (getMatchingChangesInOrder (crawlWindow st.checkpoint TABLE_VERSION r.version r.log)
            postPathMatches) st) := by
  unfold crawlSite crawlSiteAt doCrawl postsHandler
  rw [hcs]
  simp

/-- Within one no-reset run, the checkpoints written are the (strictly
increasing, window-bounded) versions of some of the resolved entries,
followed by the final checkpoint at the archive's current version. -/
lemma crawlSite_run_chain (r : RunInput) (st : CrawlState) (w : Nat)
    (hcs : computeState st.checkpoint TABLE_VERSION = (false, w))
    (hw : w ≤ r.version)
    (hsorted : r.log.Pairwise (fun a b => a.version < b.version)) :
    ∃ tr : List Checkpoint,
      (crawlSite r st).trace = st.trace ++ tr ∧
      List.Chain' (fun a b => a ≤ b) (w :: tr.map (fun x => x.sourceVersion)) ∧
      (tr.map (fun x => x.sourceVersion)).getLast? = some r.version ∧
      (crawlSite r st).checkpoint = some ⟨TABLE_VERSION, r.version⟩ := by
  have heq := crawlSite_eq_of_no_reset r st w hcs
  rcases processEntries_trace_versions TABLE_VERSION r.files r.now
    (getMatchingChangesInOrder (crawlWindow st.checkpoint TABLE_VERSION r.version r.log)
      postPathMatches) st with ⟨vs, hsub, htr⟩
  have hes_sub : (getMatchingChangesInOrder
      (crawlWindow st.checkpoint TABLE_VERSION r.version r.log) postPathMatches).Sublist
        (crawlWindow st.checkpoint TABLE_VERSION r.version r.log) := by
    rw [gmc_eq_spec]
    exact spec_sublist _ _
  refine ⟨vs.map (fun v => (⟨TABLE_VERSION, v⟩ : Checkpoint)) ++ [⟨TABLE_VERSION, r.version⟩],
    ?_, ?_, ?_, ?_⟩
  · rw [heq]
    simp only [doCheckpoint]
    rw [htr, List.append_assoc]
  · have hmapmap : ((vs.map (fun v => (⟨TABLE_VERSION, v⟩ : Checkpoint)) ++
        [(⟨TABLE_VERSION, r.version⟩ : Checkpoint)]).map (fun x => x.sourceVersion)) =
        vs ++ [r.version] := by
      rw [List.map_append, List.map_map]
      have h1 : List.map ((fun x : Checkpoint => x.sourceVersion) ∘
          fun v => (⟨TABLE_VERSION, v⟩ : Checkpoint)) vs = vs := List.map_id vs
      rw [h1]
      rfl
    rw [hmapmap]
    have hvin : ∀ v ∈ vs, w < v ∧ v ≤ r.version := by
      intro v hv
      rcases List.mem_map.mp (hsub.subset hv) with ⟨e, he, rfl⟩
      have hew : e ∈ crawlWindow st.checkpoint TABLE_VERSION r.version r.log :=
        hes_sub.subset he
      simp only [crawlWindow, hcs, List.mem_filter, Bool.and_eq_true,
        decide_eq_true_eq] at hew
      omega
    have hpw : vs.Pairwise (fun a b => a < b) := by
      refine List.Pairwise.sublist hsub ?_
      refine List.pairwise_map.mpr ?_
      exact List.Pairwise.sublist (hes_sub.trans (List.filter_sublist _)) hsorted
    exact chain_of_bounds w r.version vs hpw hvin hw
  · rw [List.map_append]
    simp
  · rw [heq]
    rfl

/-- Induction over a sequence of no-reset runs: the full stored-checkpoint
trace is a non-decreasing chain. -/
lemma crawl_runs_chain :
    ∀ (runs : List RunInput) (st : CrawlState) (v0 w : Nat),
      computeState st.checkpoint TABLE_VERSION = (false, w) →
      (∀ r ∈ runs, r.log.Pairwise (fun a b => a.version < b.version)) →
      List.Chain' (fun a b => a ≤ b) (w :: runs.map (fun r => r.version)) →
      List.Chain' (fun a b => a ≤ b) (v0 :: st.trace.map (fun x => x.sourceVersion)) →
      (v0 :: st.trace.map (fun x => x.sourceVersion)).getLast? = some w →
      List.Chain' (fun a b => a ≤ b)
        (v0 :: (runs.foldl (fun s r => crawlSite r s) st).trace.map (fun x => x.sourceVersion))
  | [], st, v0, w, _, _, _, hchain, _ => hchain
  | r :: rest, st, v0, w, hcs, hsorted, hvers, hchain, hlast => by
      have hvers2 := List.chain'_cons.mp (by simpa using hvers)
      rcases crawlSite_run_chain r st w hcs hvers2.1 (hsorted r (List.mem_cons_self _ _)) with
        ⟨tr, htr, hchainr, hlastr, hcp1⟩
      have hchainr2 := List.chain'_cons'.mp hchainr
      have hchain2 : List.Chain' (fun a b => a ≤ b)
          (v0 :: (crawlSite r st).trace.map (fun x => x.sourceVersion)) := by
        rw [htr, List.map_append, ← List.cons_append]
        refine List.Chain'.append hchain hchainr2.2 ?_
        intro x hx y hy
        rw [hlast] at hx
        simp only [Option.mem_def, Option.some.injEq] at hx
        subst hx
        exact hchainr2.1 y hy
      have hlast2 : (v0 :: (crawlSite r st).trace.map (fun x => x.sourceVersion)).getLast? =
          some r.version := by
        rw [htr, List.map_append, ← List.cons_append, List.getLast?_append, hlastr]
        rfl
      have hcs2 : computeState (crawlSite r st).checkpoint TABLE_VERSION =
          (false, r.version) := by
        rw [hcp1]
        simp [computeState]
      have hrec := crawl_runs_chain rest (crawlSite r st) v0 r.version hcs2
        (fun q hq => hsorted q (List.mem_cons_of_mem _ hq)) hvers2.2 hchain2 hlast2
      simpa using hrec

/-- C5 (amended): across any sequence of successful crawl runs whose dataset
epoch matches the stored checkpoint (no epoch change), with version-sorted
change logs and non-decreasing archive versions, the sequence of stored
checkpoint `sourceVersion` values never decreases.  (A run with a changed
epoch instead checkpoints `sourceVersion = 0` first — see the
counterexample — so the claim as stated, which includes epoch-changed runs,
fails.) -/
theorem C5_checkpoint_monotone_same_epoch (runs : List RunInput) (st0 : CrawlState) (v0 : Nat)
    (hcp : st0.checkpoint = none ∧ v0 = 0 ∨ st0.checkpoint = some ⟨TABLE_VERSION, v0⟩)
    (htr : st0.trace = [])
    (hsorted : ∀ r ∈ runs, r.log.Pairwise (fun a b => a.version < b.version))
    (hvers : List.Chain' (fun a b => a ≤ b) (v0 :: runs.map (fun r => r.version))) :
    List.Chain' (fun a b => a ≤ b)
      (v0 :: (runs.foldl (fun s r => crawlSite r s) st0).trace.map
        (fun x => x.sourceVersion)) := by
  have hcs : computeState st0.checkpoint TABLE_VERSION = (false, v0) := by
    rcases hcp with ⟨h1, rfl⟩ | h1 <;> rw [h1] <;> simp [computeState]
  exact crawl_runs_chain runs st0 v0 v0 hcs hsorted hvers
    (by rw [htr]; exact List.chain'_singleton v0) (by rw [htr]; rfl)

/-- Witness for C5's amended theorem at concrete inputs. -/
theorem C5_checkpoint_monotone_same_epoch_witness :
    ((emptyState.checkpoint = none ∧ 0 = 0 ∨ emptyState.checkpoint = some ⟨TABLE_VERSION, 0⟩) ∧
      emptyState.trace = [] ∧
      (∀ r ∈ runsC5, r.log.Pairwise (fun a b => a.version < b.version)) ∧
      List.Chain' (fun a b => a ≤ b) (0 :: runsC5.map (fun r => r.version))) ∧
    List.Chain' (fun a b => a ≤ b)
      (0 :: (runsC5.foldl (fun s r => crawlSite r s) emptyState).trace.map
        (fun x => x.sourceVersion)) :=
  have hvers : List.Chain' (fun a b : Nat => a ≤ b) (0 :: runsC5.map (fun r => r.version)) := by
    simp [runsC5]
  ⟨⟨Or.inl ⟨rfl, rfl⟩, rfl, by decide, hvers⟩,
    C5_checkpoint_monotone_same_epoch runsC5 emptyState 0 (Or.inl ⟨rfl, rfl⟩) rfl
      (by decide) hvers⟩

/-- C5 counterexample: starting from a stored checkpoint `sourceVersion = 5`
at epoch 2, a posts crawl (epoch 1) resets and stores `sourceVersion = 0`,
then finally 2 — the stored value sequence 5, 0, 2 decreases, refuting the
claim for runs invoked with a changed dataset epoch. -/
theorem C5_cex_epoch_change_decreases :
    ((crawlSite runC5x stC5).trace.map (fun x => x.sourceVersion)) = [0, 2] ∧
    ¬ List.Chain' (fun a b => a ≤ b)
        (5 :: (crawlSite runC5x stC5).trace.map (fun x => x.sourceVersion)) := by
  have h1 : ((crawlSite runC5x stC5).trace.map (fun x => x.sourceVersion)) = [0, 2] := by
    decide
  refine ⟨h1, ?_⟩
  rw [h1]
  simp

/-- Re-upserting a row with the same pathname overwrites the first upsert. -/
lemma upsert_upsert (posts : List PostRow) (r1 r2 : PostRow)
    (hpn : r1.pathname = r2.pathname) :
    upsertPost (upsertPost posts r1) r2 = upsertPost posts r2 := by
  unfold upsertPost
  by_cases hex : (posts.any (fun p => p.pathname == r1.pathname)) = true
  · rw [if_pos hex]
    have hex2 : (posts.any (fun p => p.pathname == r2.pathname)) = true := by
      rw [← hpn]
      exact hex
    rw [if_pos hex2]
    have hexm : ((posts.map (fun p => if p.pathname == r1.pathname then r1 else p)).any
        (fun p => p.pathname == r2.pathname)) = true := by
      rcases List.any_eq_true.mp hex with ⟨p, hp, hpe⟩
      refine List.any_eq_true.mpr ⟨r1, List.mem_map.mpr ⟨p, hp, by rw [if_pos hpe]⟩, ?_⟩
      simp [hpn]
    rw [if_pos hexm, List.map_map]
    refine List.map_congr_left ?_
    intro p hp
    by_cases hc : (p.pathname == r1.pathname) = true
    · have hc2 : (p.pathname == r2.pathname) = true := by
        rw [← hpn]
        exact hc
      have hr12 : (r1.pathname == r2.pathname) = true := by simp [hpn]
      simp only [Function.comp, if_pos hc, if_pos hr12, if_pos hc2]
    · have hc2 : (p.pathname == r2.pathname) = false := by
        rw [← hpn]
        exact Bool.not_eq_true _ ▸ hc
      have hc2n : ¬(p.pathname == r2.pathname) = true := by
        rw [hc2]
        exact Bool.false_ne_true
      simp only [Function.comp, if_neg hc, if_neg hc2n]
  · rw [if_neg hex]
    have hexf : (posts.any (fun p => p.pathname == r1.pathname)) = false :=
      Bool.not_eq_true _ ▸ hex
    have hex2 : (posts.any (fun p => p.pathname == r2.pathname)) = false := by
      rw [← hpn]
      exact hexf
    have hexapp : (((posts ++ [r1]).any (fun p => p.pathname == r2.pathname))) = true := by
      rw [List.any_append]
      simp [hpn]
    have hex2n : ¬(posts.any (fun p => p.pathname == r2.pathname)) = true := by
      rw [hex2]
      exact Bool.false_ne_true
    rw [if_pos hexapp, if_neg hex2n, List.map_append]
    have hno : ∀ p ∈ posts, (if p.pathname == r2.pathname then r2 else p) = p := by
      intro p hp
      rcases List.any_eq_false.mp hex2 p hp with hpf
      rw [if_neg hpf]
    congr 1
    · exact (List.map_congr_left hno).trans (List.map_id posts)
    · simp [hpn]

/-- Upserting preserves the one-row-per-pathname invariant. -/
lemma upsert_pairwise (posts : List PostRow) (r : PostRow)
    (h : posts.Pairwise (fun a b => a.pathname ≠ b.pathname)) :
    (upsertPost posts r).Pairwise (fun a b => a.pathname ≠ b.pathname) := by
  unfold upsertPost
  by_cases hex : (posts.any (fun p => p.pathname == r.pathname)) = true
  · rw [if_pos hex]
    have hpath : ∀ p : PostRow,
        ((if p.pathname == r.pathname then r else p).pathname) = p.pathname := by
      intro p
      by_cases hc : (p.pathname == r.pathname) = true
      · rw [if_pos hc]
        exact (beq_iff_eq.mp hc).symm
      · rw [if_neg hc]
    refine List.pairwise_map.mpr (h.imp ?_)
    intro a b hab
    rw [hpath a, hpath b]
    exact hab
  · rw [if_neg hex]
    have hexf : (posts.any (fun p => p.pathname == r.pathname)) = false :=
      Bool.not_eq_true _ ▸ hex
    refine List.pairwise_append.mpr ⟨h, List.pairwise_singleton _ _, ?_⟩
    intro a ha b hb
    simp only [List.mem_singleton] at hb
    subst hb
    have := List.any_eq_false.mp hexf a ha
    simpa using this

/-- In a pathname-unique table that holds the pathname, exactly one row
carries it. -/
lemma countP_pathname_unique (n : String) :
    ∀ (posts : List PostRow), posts.Pairwise (fun a b => a.pathname ≠ b.pathname) →
      (posts.any (fun p => p.pathname == n)) = true →
      posts.countP (fun p => p.pathname == n) = 1
  | [], _, hany => by simp at hany
  | p :: ps, h, hany => by
      rcases List.pairwise_cons.mp h with ⟨hp, h2⟩
      by_cases hc : (p.pathname == n) = true
      · have hz : ps.countP (fun q => q.pathname == n) = 0 := by
          rw [List.countP_eq_zero]
          intro q hq
          have hne := hp q hq
          rw [beq_iff_eq.mp hc] at hne
          simp only [ne_eq] at hne
          simp only [Bool.not_eq_true, beq_eq_false_iff_ne, ne_eq]
          exact fun hh => hne hh.symm
        rw [List.countP_cons]
        simp [hz, hc]
      · have hcf : (p.pathname == n) = false := Bool.not_eq_true _ ▸ hc
        rw [List.countP_cons]
        simp only [hcf, Bool.false_eq_true, if_false, Nat.add_zero]
        refine countP_pathname_unique n ps h2 ?_
        rcases List.any_eq_true.mp hany with ⟨q, hq, hqe⟩
        rcases List.mem_cons.mp hq with rfl | hq2
        · exact absurd hqe hc
        · exact List.any_eq_true.mpr ⟨q, hq2, hqe⟩

/-- After an upsert into a pathname-unique table, exactly one row carries the
upserted pathname. -/
lemma upsert_count (posts : List PostRow) (r : PostRow)
    (h : posts.Pairwise (fun a b => a.pathname ≠ b.pathname)) :
    ((upsertPost posts r).countP (fun p => p.pathname == r.pathname)) = 1 := by
  refine countP_pathname_unique r.pathname (upsertPost posts r) (upsert_pairwise posts r h) ?_
  unfold upsertPost
  by_cases hex : (posts.any (fun p => p.pathname == r.pathname)) = true
  · rw [if_pos hex]
    rcases List.any_eq_true.mp hex with ⟨p, hp, hpe⟩
    refine List.any_eq_true.mpr ⟨r, List.mem_map.mpr ⟨p, hp, by rw [if_pos hpe]⟩, by simp⟩
  · rw [if_neg hex, List.any_append]
    simp

/-- C8: an add/change entry whose file reads and validates applies as an
upsert keyed by pathname: the loop body checkpoints the entry's version and
upserts the row; re-applying the same entry in a later run overwrites the
same row (yielding exactly the table of the single later application), the
one-row-per-pathname invariant is preserved, and exactly one row carries the
entry's pathname — no duplicate row is created. -/
theorem C8_upsert_idempotent (files : String → ReadResult) (now1 now2 epoch : Nat)
    (st : CrawlState) (c : ChangeEvent) (body : String) (createdAt : Int)
    (updatedAt : Option Int)
    (h1 : c.type ≠ CType.del) (h2 : files c.name = ReadResult.valid body createdAt updatedAt)
    (hnodup : st.posts.Pairwise (fun a b => a.pathname ≠ b.pathname)) :
    (processEntry epoch files now1 st c =
      some (doCheckpoint epoch c.version
        { st with posts := (upsertPost st.posts
            ⟨c.name, now1, body, createdAt, updatedAt.getD 0⟩) })) ∧
    upsertPost (upsertPost st.posts ⟨c.name, now1, body, createdAt, updatedAt.getD 0⟩)
        ⟨c.name, now2, body, createdAt, updatedAt.getD 0⟩ =
      upsertPost st.posts ⟨c.name, now2, body, createdAt, updatedAt.getD 0⟩ ∧
    (upsertPost st.posts ⟨c.name, now2, body, createdAt, updatedAt.getD 0⟩).Pairwise
      (fun a b => a.pathname ≠ b.pathname) ∧
    (upsertPost st.posts ⟨c.name, now2, body, createdAt, updatedAt.getD 0⟩).countP
      (fun p => p.pathname == c.name) = 1 := by
  refine ⟨?_, upsert_upsert _ _ _ rfl, upsert_pairwise _ _ hnodup, ?_⟩
  · unfold processEntry
    cases hc : c.type
    case del => exact absurd hc h1
    case add => rw [h2]
    case change => rw [h2]
  · exact upsert_count st.posts ⟨c.name, now2, body, createdAt, updatedAt.getD 0⟩ hnodup

/-- Witness for C8 at concrete inputs. -/
theorem C8_upsert_idempotent_witness :
    (evC8.type ≠ CType.del ∧ filesC8 evC8.name = ReadResult.valid "bb" 4 none ∧
      stC8.posts.Pairwise (fun a b => a.pathname ≠ b.pathname)) ∧
    ((processEntry 1 filesC8 5 stC8 evC8 =
        some (doCheckpoint 1 evC8.version
          { stC8 with posts := (upsertPost stC8.posts
              ⟨evC8.name, 5, "bb", 4, (none : Option Int).getD 0⟩) })) ∧
      upsertPost (upsertPost stC8.posts ⟨evC8.name, 5, "bb", 4, (none : Option Int).getD 0⟩)
          ⟨evC8.name, 6, "bb", 4, (none : Option Int).getD 0⟩ =
        upsertPost stC8.posts ⟨evC8.name, 6, "bb", 4, (none : Option Int).getD 0⟩ ∧
      (upsertPost stC8.posts ⟨evC8.name, 6, "bb", 4, (none : Option Int).getD 0⟩).Pairwise
        (fun a b => a.pathname ≠ b.pathname) ∧
      (upsertPost stC8.posts ⟨evC8.name, 6, "bb", 4, (none : Option Int).getD 0⟩).countP
        (fun p => p.pathname == evC8.name) = 1) :=
  ⟨⟨by decide, rfl, by decide⟩,
    C8_upsert_idempotent filesC8 5 6 1 stC8 evC8 "bb" 4 none (by decide) rfl (by decide)⟩

/-- C7: the hops clamp and scope follow the code for every present value —
a present `hops` is clamped into `[1, 2]`, clamped value 1 scopes to the
user's own source id, clamped value 2 scopes to the user plus exactly the
sources the user's follow-graph entries point to (no transitive expansion) —
but an omitted `hops` (the documented default 1) yields NaN, matches neither
branch, and leaves the scope undefined instead of the user's own id. -/
theorem C7_hops_clamp_and_scope :
    (∀ h : Int, clampHops (some h) = some (min (max h 1) 2) ∧
      1 ≤ min (max h 1) 2 ∧ min (max h 1) 2 ≤ 2) ∧
    (∀ (userId : Nat) (followedIds : List Nat),
      scopeIds userId followedIds (some 1) = some [userId]) ∧
    (∀ (userId : Nat) (followedIds : List Nat),
      scopeIds userId followedIds (some 2) = some (userId :: followedIds)) ∧
    (∀ (userId x : Nat) (sources edges : List (Nat × String)),
      x ∈ followedSourceIds sources edges userId ↔
        ∃ s ∈ sources, s.1 = x ∧ ∃ e ∈ edges, e.1 = userId ∧ e.2 = s.2) ∧
    clampHops none = none ∧
    (∀ (userId : Nat) (followedIds : List Nat),
      scopeIds userId followedIds (clampHops none) = none) := by
  refine ⟨?_, fun u f => rfl, fun u f => rfl, ?_, rfl, fun u f => rfl⟩
  · intro h
    refine ⟨rfl, ?_, ?_⟩ <;> omega
  · intro userId x sources edges
    constructor
    · intro hx
      rcases List.mem_map.mp hx with ⟨s, hs, rfl⟩
      rcases List.mem_filter.mp hs with ⟨hs1, hs2⟩
      rcases List.any_eq_true.mp hs2 with ⟨e, he, hee⟩
      simp only [Bool.and_eq_true] at hee
      exact ⟨s, hs1, rfl, e, he, beq_iff_eq.mp hee.2, beq_iff_eq.mp hee.1⟩
    · rintro ⟨s, hs, rfl, e, he, heu, hes⟩
      refine List.mem_map.mpr ⟨s, List.mem_filter.mpr ⟨hs, ?_⟩, rfl⟩
      exact List.any_eq_true.mpr ⟨e, he, by simp [heu, hes]⟩

/-- C9: the final result list is (a stable descending-by-`crawledAt` sort
of) the concatenation of the per-dataset result sets, truncated to the
effective limit, which defaults to 20; its length never exceeds the limit. -/
theorem C9_merge_sort_truncate (datasets : Option (List String)) (limit : Option Nat)
    (fg lp ps : List SearchRow) (efg elp eps : SearchRow → SearchRow) :
    (∃ L : List SearchRow,
      L.Perm (followgraphResults datasets fg efg ++ linkPostsResults datasets lp elp ++
        publishedSitesResults datasets ps eps) ∧
      L.Pairwise (fun a b => b.crawledAt ≤ a.crawledAt) ∧
      listSearchResults datasets limit fg lp ps efg elp eps = L.take (effLimit limit)) ∧
    (listSearchResults datasets limit fg lp ps efg elp eps).length ≤ effLimit limit ∧
    effLimit none = 20 := by
  refine ⟨⟨(followgraphResults datasets fg efg ++ linkPostsResults datasets lp elp ++
      publishedSitesResults datasets ps eps).insertionSort byCrawledAtDesc,
      List.perm_insertionSort _ _, ?_, rfl⟩, ?_, rfl⟩
  · exact List.sorted_insertionSort byCrawledAtDesc _
  · unfold listSearchResults
    rw [List.length_take]
    exact Nat.min_le_left _ _

/-- C10: the bookmarks and history fields of the suggestions are present
exactly when the query is a non-empty string, and each holds at most 12
entries when present. -/
theorem C10_suggestions_query_gated (query : String) (filterPins : Bool)
    (basic : String → String) (libraryResults : List LibRec)
    (bookmarkRows : List BookmarkRec) (historySearch : String → List HistRec) :
    ((listSuggestions query filterPins basic libraryResults bookmarkRows
        historySearch).bookmarks ≠ none ↔ query ≠ "") ∧
    ((listSuggestions query filterPins basic libraryResults bookmarkRows
        historySearch).history ≠ none ↔ query ≠ "") ∧
    (∀ l, (listSuggestions query filterPins basic libraryResults bookmarkRows
        historySearch).bookmarks = some l → l.length ≤ 12) ∧
    (∀ l, (listSuggestions query filterPins basic libraryResults bookmarkRows
        historySearch).history = some l → l.length ≤ 12) := by
  by_cases hq : query ≠ ""
  · simp only [listSuggestions, if_pos hq]
    refine ⟨by simpa using hq, by simpa using hq, ?_, ?_⟩
    · intro l hl
      simp only [Option.some.injEq] at hl
      subst hl
      rw [List.length_map, List.length_take]
      exact le_trans (Nat.min_le_left _ _) (le_refl 12)
    · intro l hl
      simp only [Option.some.injEq] at hl
      subst hl
      rw [(List.perm_insertionSort _ _).length_eq, List.length_take]
      exact Nat.min_le_left _ _
  · simp only [listSuggestions, if_neg hq]
    simp only [ne_eq, not_not] at hq
    refine ⟨by simp [hq], by simp [hq], ?_, ?_⟩
    · intro l hl
      simp at hl
    · intro l hl
      simp at hl

example : postPathMatches "/data/feed/a.json" = true := by decide

example : postPathMatches "/Data/Feed/A.JSON" = true := by decide

example : postPathMatches "/data/feed/.json" = false := by decide

example : postPathMatches "/data/feed/a/b.json" = false := by decide

example : postPathMatches "/data/other/a.json" = false := by decide

example :
    getMatchingChangesInOrder
      [⟨"/data/feed/a.json", CType.add, 1⟩, ⟨"/data/feed/b.json", CType.add, 2⟩,
       ⟨"/data/feed/a.json", CType.change, 3⟩, ⟨"/x", CType.add, 4⟩]
      postPathMatches =
    [⟨"/data/feed/b.json", CType.add, 2⟩, ⟨"/data/feed/a.json", CType.change, 3⟩] := by
  decide

end Beaker
